import Mathlib

/-!
Shallow embedding of the entry lifecycle and view-state engine of
`src/index.tsx` (a single-user diary application with AI generated
titles and coach summaries).

Modelling conventions:
* JavaScript string truthiness (`if (s)`) is `strTruthy`: a string is
  truthy iff it is non-empty.
* `toLowerCase` is modelled character-wise by `strLower`.
* The outcome of one call to the external text-generation capability is
  a `GenResult`: the capability object failed to initialize
  (`unavailable`, the `!ai` check), the call threw (`failure`, the
  `catch` branch), or the call returned a text (`success`).
* Store mutations are the handler functions of the source, acting on
  the `entries` array; they are collected in the inductive `Op` and
  executed by `applyOp`.  `handleAiCoach` is split into its two phases
  around the `await`: `requestCoachIdx` (the `findIndex` before the
  call) and `attachAt` (the write-back `entries[entryIndex].coachSummary
  = summary` after it, which leaves the store unchanged when the index
  is out of bounds because the thrown `TypeError` is caught).
* The view projector is the pure part of `renderDiaryPage` /
  `renderTrashPage`: status filter, search filter, sort by id descending,
  expanded flag.  `renderDiaryPage` also has a state effect (it clears
  `expandedEntryId` while a search is active), modelled by returning an
  updated `AppState` alongside the projected list.
-/

set_option linter.unusedVariables false

inductive Status where
  | active
  | trashed
deriving DecidableEq, Repr

structure DiaryEntry where
  id : Nat
  date : String
  title : String
  content : String
  status : Status
  coachSummary : Option String
deriving DecidableEq, Repr

/-- JavaScript string truthiness: a string is truthy iff non-empty. -/
def strTruthy (s : String) : Bool := !s.data.isEmpty

/-- models `String.prototype.toLowerCase`, character-wise. -/
def strLower (s : String) : String := ⟨s.data.map Char.toLower⟩

/-- list-of-characters test: does the second list start with the first. -/
def startsw : List Char → List Char → Bool
  | [], _ => true
  | _ :: _, [] => false
  | a :: as, b :: bs => a == b && startsw as bs

/-- substring test on character lists (models `String.prototype.includes`). -/
def subseg (needle : List Char) : List Char → Bool
  | [] => needle.isEmpty
  | b :: bs => startsw needle (b :: bs) || subseg needle bs

/-- models `String.prototype.trim`: drop whitespace from both ends. -/
def strTrim (s : String) : String :=
  ⟨List.reverse (List.dropWhile Char.isWhitespace
     (List.reverse (List.dropWhile Char.isWhitespace s.data)))⟩

/-- models `hay.toLowerCase().includes(lq)` where `lq` is the already
lowercased search query. -/
def lcIncl (hay : String) (lq : String) : Bool := subseg lq.data (strLower hay).data

/-- models the summary conjunct of the search filter:
`entry.coachSummary && entry.coachSummary.toLowerCase().includes(lq)`. -/
def coachMatches (lq : String) : Option String → Bool
  | none => false
  | some s => strTruthy s && lcIncl s lq

/-- models the search predicate of `renderDiaryPage` / `renderTrashPage`
(lines 86-90 and 151-155 of `src/index.tsx`). -/
def entryMatches (lq : String) (e : DiaryEntry) : Bool :=
  lcIncl e.title lq || lcIncl e.content lq || coachMatches lq e.coachSummary

/-- descending-id order used by `.sort((a, b) => b.id - a.id)`. -/
def idLE (a b : DiaryEntry) : Prop := b.id ≤ a.id

instance : DecidableRel idLE := fun a b => Nat.decLe b.id a.id

instance : IsTotal DiaryEntry idLE := ⟨fun a b => Nat.le_total b.id a.id⟩

instance : IsTrans DiaryEntry idLE := ⟨fun _ _ _ h₁ h₂ => Nat.le_trans h₂ h₁⟩

/-- models `.sort((a, b) => b.id - a.id)` (a comparison sort under a
total order; the concrete sorting algorithm is irrelevant). -/
def sortDesc (l : List DiaryEntry) : List DiaryEntry := List.insertionSort idLE l

/-- entry list of the diary view: the filter + search + sort pipeline of
`renderDiaryPage` (lines 81-93). -/
def diaryEntriesOf (entries : List DiaryEntry) (q : String) : List DiaryEntry :=
  let act := entries.filter (fun e => decide (e.status = Status.active))
  sortDesc (if strTruthy q then act.filter (entryMatches (strLower q)) else act)

/-- entry list of the trash view: the filter + search + sort pipeline of
`renderTrashPage` (lines 147-158). -/
def trashEntriesOf (entries : List DiaryEntry) (q : String) : List DiaryEntry :=
  let tr := entries.filter (fun e => decide (e.status = Status.trashed))
  sortDesc (if strTruthy q then tr.filter (entryMatches (strLower q)) else tr)

/-- diary view projection with the per-entry expanded flag
`entry.id === expandedEntryId && !searchQuery` (line 105). -/
def diaryList (entries : List DiaryEntry) (q : String) (eid : Option Nat) :
    List (DiaryEntry × Bool) :=
  (diaryEntriesOf entries q).map (fun e => (e, decide (some e.id = eid) && !strTruthy q))

/-- truthiness of the optional coach summary (JavaScript
`entry.coachSummary` used as a boolean). -/
def summaryTruthy : Option String → Bool
  | none => false
  | some s => strTruthy s

/-- whether the diary view offers the AI Coach button for an entry:
`!entry.coachSummary` (line 113). -/
def coachButtonShown (e : DiaryEntry) : Bool := !(summaryTruthy e.coachSummary)

/-- whether the diary view renders the coach summary block:
`entry.coachSummary ? ... : ''` (line 110). -/
def coachBlockShown (e : DiaryEntry) : Bool := summaryTruthy e.coachSummary

inductive View where
  | diary
  | trash
deriving DecidableEq, Repr

/-- navigation and search state of the application. -/
structure AppState where
  entries : List DiaryEntry
  currentView : View
  searchQuery : String
  expandedEntryId : Option Nat
deriving DecidableEq, Repr

/-- models `renderDiaryPage` (lines 76-136): while a search is active it
clears `expandedEntryId` (line 84) and then produces the projected
list.  The DOM writes are ignored; the projected list is the data the
function renders. -/
def renderDiaryPage (st : AppState) : AppState × List (DiaryEntry × Bool) :=
  let newEid := if strTruthy st.searchQuery then none else st.expandedEntryId
  ({ st with expandedEntryId := newEid },
   diaryList st.entries st.searchQuery newEid)

/-- models `renderTrashPage` (lines 142-184): pure, no state effect. -/
def renderTrashPage (st : AppState) : AppState × List DiaryEntry :=
  (st, trashEntriesOf st.entries st.searchQuery)

/-- outcome of one call to the text-generation capability. -/
inductive GenResult where
  | unavailable
  | failure
  | success (text : String)
deriving DecidableEq, Repr

/-- models `generateTitle` (lines 270-285): fallback when the capability
is unavailable or the call fails, otherwise the trimmed text or the
fallback when the trimmed text is empty
(`response.text.trim() || dateString`).  Total by construction: never
throws to the caller. -/
def generateTitle (g : GenResult) (content : String) (dateString : String) : String :=
  match g with
  | .unavailable => dateString
  | .failure => dateString
  | .success t => if strTruthy (strTrim t) then strTrim t else dateString

/-- models `getAiCoachSummary` (lines 292-380): sentinel strings on
unavailability and failure, trimmed text (no fallback) on success.
Total by construction: never throws to the caller. -/
def getAiCoachSummary (g : GenResult) : String :=
  match g with
  | .unavailable => "AI is currently unavailable."
  | .failure => "Could not generate a summary at this time."
  | .success t => strTrim t

/-- store mutations of the source, with the environment inputs they read
(clock value `now = Date.now()`, formatted date string, generator call
outcome) made explicit. -/
inductive Op where
  | create (now : Nat) (dateStr : String) (content : String) (userTitle : String) (gen : GenResult)
  | update (id : Nat) (content : String) (userTitle : String) (gen : GenResult)
  | trash (id : Nat)
  | restore (id : Nat)
  | pdelete (id : Nat) (confirmed : Bool)
  | attach (idx : Nat) (summary : String)
deriving DecidableEq, Repr

/-- models `findIndex` + in-place status write of `handleDeleteEntry` /
`handleRestoreEntry`: only the first entry with the id is touched. -/
def setStatusFirst (id : Nat) (st : Status) : List DiaryEntry → List DiaryEntry
  | [] => []
  | e :: rest =>
      if e.id == id then { e with status := st } :: rest
      else e :: setStatusFirst id st rest

/-- models the edit branch body of `handleFormSubmit` (lines 416-428)
for the entry found at the index: title-only update when the content is
unchanged, full replacement (generated title, cleared summary) when it
changed. -/
def updEntry (content userTitle : String) (gen : GenResult) (e : DiaryEntry) : DiaryEntry :=
  if e.content = content then { e with title := userTitle }
  else { e with content := content,
                title := generateTitle gen content e.date,
                coachSummary := none }

/-- models `findIndex` + write of the edit branch of `handleFormSubmit`:
only the first entry with the id is touched. -/
def updateFirst (id : Nat) (content userTitle : String) (gen : GenResult) :
    List DiaryEntry → List DiaryEntry
  | [] => []
  | e :: rest =>
      if e.id == id then updEntry content userTitle gen e :: rest
      else e :: updateFirst id content userTitle gen rest

/-- models the write-back `entries[entryIndex].coachSummary = summary`
of `handleAiCoach` (line 488) against the collection current at
resolution time: writes at the captured position; when the position is
out of bounds the member access throws, the exception is caught and the
store is left unchanged. -/
def attachAt : Nat → String → List DiaryEntry → List DiaryEntry
  | _, _, [] => []
  | 0, s, e :: rest => { e with coachSummary := some s } :: rest
  | n + 1, s, e :: rest => e :: attachAt n s rest

/-- models `findIndex(e => e.id === id)` performed by `handleAiCoach`
before the `await` (line 477): the captured index. -/
def requestCoachIdx (id : Nat) : List DiaryEntry → Option Nat
  | [] => none
  | e :: rest => if e.id == id then some 0 else (requestCoachIdx id rest).map (fun n => n + 1)

/-- entry pushed by the create branch of `handleFormSubmit`
(lines 432-443). -/
def newEntry (now : Nat) (dateStr content title : String) : DiaryEntry :=
  { id := now, date := dateStr, title := title, content := content,
    status := Status.active, coachSummary := none }

/-- one store mutation, as the corresponding handler performs it on the
`entries` array. -/
def applyOp (o : Op) (es : List DiaryEntry) : List DiaryEntry :=
  match o with
  | .create now dateStr content userTitle gen =>
      if strTruthy content then
        es ++ [newEntry now dateStr content
                 (if strTruthy userTitle then userTitle
                  else generateTitle gen content dateStr)]
      else es
  | .update id content userTitle gen =>
      if strTruthy content then updateFirst id content userTitle gen es else es
  | .trash id => setStatusFirst id Status.trashed es
  | .restore id => setStatusFirst id Status.active es
  | .pdelete id confirmed =>
      if confirmed then es.filter (fun e => !(e.id == id)) else es
  | .attach i s => attachAt i s es

/-- a finite sequence of store mutations, applied left to right. -/
def applyOps (ops : List Op) (es : List DiaryEntry) : List DiaryEntry :=
  ops.foldl (fun s o => applyOp o s) es

/-- first entry with the given id (observer used to state properties;
matches `entries.find(e => e.id === id)`). -/
def entryOf (id : Nat) : List DiaryEntry → Option DiaryEntry
  | [] => none
  | e :: rest => if e.id == id then some e else entryOf id rest

/-- observable status of the entry with the given id. -/
def statusOf (id : Nat) (es : List DiaryEntry) : Option Status :=
  (entryOf id es).map (fun e => e.status)

/-- whether some entry with the given id is in the store. -/
def hasId (id : Nat) : List DiaryEntry → Bool
  | [] => false
  | e :: rest => e.id == id || hasId id rest

/-- sequence of ids of the store, in storage order. -/
def idsOf (es : List DiaryEntry) : List Nat := es.map (fun e => e.id)

/-- freshness of one operation relative to the current store: a create
must use a clock value that is not an existing id (the implicit
assumption the source makes about `Date.now()`). -/
def freshOk (o : Op) (es : List DiaryEntry) : Bool :=
  match o with
  | .create now _ _ _ _ => !(hasId now es)
  | _ => true

/-- freshness of a whole operation sequence, threaded through the
evolving store. -/
def freshSeq : List Op → List DiaryEntry → Bool
  | [], _ => true
  | o :: rest, es => freshOk o es && freshSeq rest (applyOp o es)

/-- discriminates the create operation. -/
def isCreate : Op → Bool
  | .create _ _ _ _ _ => true
  | _ => false

/-- whether an operation sequence contains no create. -/
def noCreate (ops : List Op) : Bool := ops.all (fun o => !(isCreate o))

/-- case-insensitive substring test over title, content and coach
summary (absent summary read as the empty string), with OR semantics,
as the specification words it. -/
def fieldTest (q : String) (e : DiaryEntry) : Bool :=
  lcIncl e.title (strLower q) || lcIncl e.content (strLower q) ||
    lcIncl (e.coachSummary.getD "") (strLower q)

/-! ### Search and sort lemmas -/

lemma mem_sortDesc {e : DiaryEntry} {l : List DiaryEntry} : e ∈ sortDesc l ↔ e ∈ l := by
  simp [sortDesc]

lemma sorted_sortDesc (l : List DiaryEntry) : List.Sorted idLE (sortDesc l) :=
  List.sorted_insertionSort idLE l

lemma perm_sortDesc (l : List DiaryEntry) : (sortDesc l).Perm l :=
  List.perm_insertionSort idLE l

lemma strTruthy_iff {s : String} : strTruthy s = true ↔ s.data ≠ [] := by
  simp [strTruthy]

lemma strLower_data (s : String) : (strLower s).data = s.data.map Char.toLower := rfl

lemma strLower_data_ne {q : String} (hq : strTruthy q = true) : (strLower q).data ≠ [] := by
  rw [strLower_data]
  simpa using strTruthy_iff.mp hq

lemma lcIncl_of_empty_hay {lq : String} (h : lq.data ≠ []) : lcIncl "" lq = false := by
  unfold lcIncl
  cases hd : lq.data with
  | nil => exact absurd hd h
  | cons a as => rfl

lemma strTruthy_false_eq {s : String} (h : strTruthy s = false) : s = "" := by
  have hd : s.data = [] := by simpa [strTruthy] using h
  cases s
  exact congrArg String.mk hd

lemma coachMatches_eq_getD {q : String} (hq : strTruthy q = true) (cs : Option String) :
    coachMatches (strLower q) cs = lcIncl (cs.getD "") (strLower q) := by
  have hne : (strLower q).data ≠ [] := strLower_data_ne hq
  cases cs with
  | none =>
      simp [coachMatches, Option.getD, lcIncl_of_empty_hay hne]
  | some s =>
      cases hs : strTruthy s with
      | true => simp [coachMatches, hs, Option.getD]
      | false =>
          have hs0 : s = "" := strTruthy_false_eq hs
          subst hs0
          simp [coachMatches, hs, Option.getD, lcIncl_of_empty_hay hne]

lemma entryMatches_eq_fieldTest {q : String} (hq : strTruthy q = true) (e : DiaryEntry) :
    entryMatches (strLower q) e = fieldTest q e := by
  unfold entryMatches fieldTest
  rw [coachMatches_eq_getD hq]

lemma mem_diaryEntriesOf {entries : List DiaryEntry} {q : String} {e : DiaryEntry} :
    e ∈ diaryEntriesOf entries q ↔
      e ∈ entries ∧ e.status = Status.active ∧ (strTruthy q = true → fieldTest q e = true) := by
  unfold diaryEntriesOf
  rw [mem_sortDesc]
  by_cases hq : strTruthy q = true
  · rw [if_pos hq]
    simp only [List.mem_filter, decide_eq_true_eq]
    constructor
    · rintro ⟨⟨h1, h2⟩, h3⟩
      exact ⟨h1, h2, fun _ => by rwa [entryMatches_eq_fieldTest hq] at h3⟩
    · rintro ⟨h1, h2, h3⟩
      exact ⟨⟨h1, h2⟩, by rw [entryMatches_eq_fieldTest hq]; exact h3 hq⟩
  · rw [if_neg hq]
    simp [List.mem_filter, hq]

lemma mem_trashEntriesOf {entries : List DiaryEntry} {q : String} {e : DiaryEntry} :
    e ∈ trashEntriesOf entries q ↔
      e ∈ entries ∧ e.status = Status.trashed ∧ (strTruthy q = true → fieldTest q e = true) := by
  unfold trashEntriesOf
  rw [mem_sortDesc]
  by_cases hq : strTruthy q = true
  · rw [if_pos hq]
    simp only [List.mem_filter, decide_eq_true_eq]
    constructor
    · rintro ⟨⟨h1, h2⟩, h3⟩
      exact ⟨h1, h2, fun _ => by rwa [entryMatches_eq_fieldTest hq] at h3⟩
    · rintro ⟨h1, h2, h3⟩
      exact ⟨⟨h1, h2⟩, by rw [entryMatches_eq_fieldTest hq]; exact h3 hq⟩
  · rw [if_neg hq]
    simp [List.mem_filter, hq]

/-! ### Structural lemmas about the store operations -/

lemma entryOf_setStatusFirst_self (id : Nat) (st : Status) (es : List DiaryEntry) :
    entryOf id (setStatusFirst id st es) =
      (entryOf id es).map (fun e => { e with status := st }) := by
  induction es with
  | nil => rfl
  | cons e rest ih =>
      by_cases h : (e.id == id) = true
      · simp [setStatusFirst, entryOf, h]
      · simp [setStatusFirst, entryOf, h, ih]

lemma entryOf_setStatusFirst_other {id id' : Nat} (h : id ≠ id') (st : Status)
    (es : List DiaryEntry) : entryOf id (setStatusFirst id' st es) = entryOf id es := by
  induction es with
  | nil => rfl
  | cons e rest ih =>
      by_cases h1 : (e.id == id') = true
      · have he : e.id = id' := by simpa using h1
        have h2 : (e.id == id) = false := by
          simp [he]
          exact fun hh => h hh.symm
        simp [setStatusFirst, entryOf, h1, h2]
      · by_cases h2 : (e.id == id) = true
        · simp [setStatusFirst, entryOf, h1, h2]
        · simp [setStatusFirst, entryOf, h1, h2, ih]

lemma updEntry_id (c t : String) (g : GenResult) (e : DiaryEntry) :
    (updEntry c t g e).id = e.id := by
  unfold updEntry
  split <;> rfl

lemma updEntry_status (c t : String) (g : GenResult) (e : DiaryEntry) :
    (updEntry c t g e).status = e.status := by
  unfold updEntry
  split <;> rfl

lemma entryOf_updateFirst_self (id : Nat) (c t : String) (g : GenResult)
    (es : List DiaryEntry) :
    entryOf id (updateFirst id c t g es) = (entryOf id es).map (updEntry c t g) := by
  induction es with
  | nil => rfl
  | cons e rest ih =>
      by_cases h : (e.id == id) = true
      · simp [updateFirst, entryOf, h, updEntry_id]
      · simp [updateFirst, entryOf, h, ih]

lemma entryOf_updateFirst_other {id id' : Nat} (h : id ≠ id') (c t : String)
    (g : GenResult) (es : List DiaryEntry) :
    entryOf id (updateFirst id' c t g es) = entryOf id es := by
  induction es with
  | nil => rfl
  | cons e rest ih =>
      by_cases h1 : (e.id == id') = true
      · have he : e.id = id' := by simpa using h1
        have h2 : (e.id == id) = false := by
          simp [he]
          exact fun hh => h hh.symm
        simp [updateFirst, entryOf, h1, h2, updEntry_id]
      · by_cases h2 : (e.id == id) = true
        · simp [updateFirst, entryOf, h1, h2]
        · simp [updateFirst, entryOf, h1, h2, ih]

lemma entryOf_append (id : Nat) (l₁ l₂ : List DiaryEntry) :
    entryOf id (l₁ ++ l₂) = (entryOf id l₁).or (entryOf id l₂) := by
  induction l₁ with
  | nil => simp [entryOf]
  | cons e rest ih =>
      by_cases h : (e.id == id) = true
      · simp [entryOf, h]
      · simp [entryOf, h, ih]

lemma entryOf_filter_self (id : Nat) (es : List DiaryEntry) :
    entryOf id (es.filter (fun e => !(e.id == id))) = none := by
  induction es with
  | nil => rfl
  | cons e rest ih =>
      by_cases h : (e.id == id) = true
      · simp [List.filter, h, ih]
      · simp [List.filter, h, entryOf, ih]

lemma entryOf_filter_other {id id' : Nat} (h : id ≠ id') (es : List DiaryEntry) :
    entryOf id (es.filter (fun e => !(e.id == id'))) = entryOf id es := by
  induction es with
  | nil => rfl
  | cons e rest ih =>
      by_cases h1 : (e.id == id') = true
      · have he : e.id = id' := by simpa using h1
        have h2 : (e.id == id) = false := by
          simp [he]
          exact fun hh => h hh.symm
        simp [List.filter, h1, entryOf, h2, ih]
      · by_cases h2 : (e.id == id) = true
        · simp [List.filter, h1, entryOf, h2]
        · simp [List.filter, h1, entryOf, h2, ih]

lemma entryOf_attachAt (id : Nat) (i : Nat) (s : String) (es : List DiaryEntry) :
    statusOf id (attachAt i s es) = statusOf id es := by
  induction es generalizing i with
  | nil => cases i <;> rfl
  | cons e rest ih =>
      cases i with
      | zero =>
          by_cases h : (e.id == id) = true
          · simp [attachAt, statusOf, entryOf, h]
          · simp [attachAt, statusOf, entryOf, h]
      | succ n =>
          by_cases h : (e.id == id) = true
          · simp [attachAt, statusOf, entryOf, h]
          · simpa [attachAt, statusOf, entryOf, h] using ih n

/-! ### Id-sequence lemmas -/

lemma idsOf_nil : idsOf [] = [] := rfl

lemma idsOf_cons (e : DiaryEntry) (es : List DiaryEntry) :
    idsOf (e :: es) = e.id :: idsOf es := rfl

lemma idsOf_append (l₁ l₂ : List DiaryEntry) : idsOf (l₁ ++ l₂) = idsOf l₁ ++ idsOf l₂ :=
  List.map_append _ _ _

lemma idsOf_setStatusFirst (id : Nat) (st : Status) (es : List DiaryEntry) :
    idsOf (setStatusFirst id st es) = idsOf es := by
  induction es with
  | nil => rfl
  | cons e rest ih =>
      by_cases h : (e.id == id) = true
      · simp [setStatusFirst, idsOf, h]
      · simp only [setStatusFirst, if_neg h, idsOf_cons]
        rw [show idsOf (setStatusFirst id st rest) = idsOf rest from ih]

lemma idsOf_updateFirst (id : Nat) (c t : String) (g : GenResult) (es : List DiaryEntry) :
    idsOf (updateFirst id c t g es) = idsOf es := by
  induction es with
  | nil => rfl
  | cons e rest ih =>
      by_cases h : (e.id == id) = true
      · simp [updateFirst, idsOf, h, updEntry_id]
      · simp only [updateFirst, if_neg h, idsOf_cons]
        rw [show idsOf (updateFirst id c t g rest) = idsOf rest from ih]

lemma idsOf_attachAt (i : Nat) (s : String) (es : List DiaryEntry) :
    idsOf (attachAt i s es) = idsOf es := by
  induction es generalizing i with
  | nil => cases i <;> rfl
  | cons e rest ih =>
      cases i with
      | zero => simp [attachAt, idsOf]
      | succ n =>
          simp only [attachAt, idsOf_cons]
          rw [show idsOf (attachAt n s rest) = idsOf rest from ih n]

lemma idsOf_filter_ne (n : Nat) (es : List DiaryEntry) :
    idsOf (es.filter (fun e => !(e.id == n))) = (idsOf es).filter (fun m => !(m == n)) := by
  induction es with
  | nil => rfl
  | cons e rest ih =>
      by_cases h : (e.id == n) = true
      · simpa [List.filter_cons, h, idsOf] using ih
      · simpa [List.filter_cons, h, idsOf] using ih

lemma hasId_iff_mem (id : Nat) (es : List DiaryEntry) :
    hasId id es = true ↔ id ∈ idsOf es := by
  induction es with
  | nil => simp [hasId, idsOf]
  | cons e rest ih =>
      simp only [hasId, idsOf_cons, Bool.or_eq_true, List.mem_cons, ih, beq_iff_eq]
      constructor
      · rintro (h | h)
        · exact Or.inl h.symm
        · exact Or.inr h
      · rintro (h | h)
        · exact Or.inl h.symm
        · exact Or.inr h

lemma hasId_false_elems {id : Nat} {es : List DiaryEntry} (h : hasId id es = false) :
    ∀ e ∈ es, e.id ≠ id := by
  induction es with
  | nil => intro e he; cases he
  | cons e rest ih =>
      intro f hf
      simp only [hasId, Bool.or_eq_false_iff] at h
      rcases List.mem_cons.mp hf with h1 | h1
      · subst h1
        simpa using h.1
      · exact ih h.2 f h1

lemma hasId_false_of_elems {id : Nat} {es : List DiaryEntry}
    (h : ∀ e ∈ es, e.id ≠ id) : hasId id es = false := by
  induction es with
  | nil => rfl
  | cons e rest ih =>
      simp only [hasId, Bool.or_eq_false_iff]
      constructor
      · simpa using h e (List.mem_cons_self e rest)
      · exact ih (fun f hf => h f (List.mem_cons_of_mem e hf))

lemma hasId_entryOf_none {id : Nat} {es : List DiaryEntry} (h : hasId id es = false) :
    entryOf id es = none := by
  induction es with
  | nil => rfl
  | cons e rest ih =>
      simp only [hasId, Bool.or_eq_false_iff] at h
      simp [entryOf, h.1, ih h.2]

/-! ### No-op lemmas for absent ids and sequence lemmas -/

lemma applyOps_nil (es : List DiaryEntry) : applyOps [] es = es := rfl

lemma applyOps_cons (o : Op) (ops : List Op) (es : List DiaryEntry) :
    applyOps (o :: ops) es = applyOps ops (applyOp o es) := rfl

lemma setStatusFirst_not_found {id : Nat} {es : List DiaryEntry}
    (h : hasId id es = false) (st : Status) : setStatusFirst id st es = es := by
  induction es with
  | nil => rfl
  | cons e rest ih =>
      simp only [hasId, Bool.or_eq_false_iff] at h
      simp [setStatusFirst, h.1, ih h.2]

lemma updateFirst_not_found {id : Nat} {es : List DiaryEntry}
    (h : hasId id es = false) (c t : String) (g : GenResult) :
    updateFirst id c t g es = es := by
  induction es with
  | nil => rfl
  | cons e rest ih =>
      simp only [hasId, Bool.or_eq_false_iff] at h
      simp [updateFirst, h.1, ih h.2]

lemma filter_not_found {id : Nat} {es : List DiaryEntry}
    (h : hasId id es = false) : es.filter (fun e => !(e.id == id)) = es := by
  apply List.filter_eq_self.mpr
  intro e he
  simp [hasId_false_elems h e he]

lemma hasId_filter_self (id : Nat) (es : List DiaryEntry) :
    hasId id (es.filter (fun e => !(e.id == id))) = false := by
  apply hasId_false_of_elems
  intro e he
  have := (List.mem_filter.mp he).2
  simpa using this

lemma hasId_sub_filter {id : Nat} {es : List DiaryEntry} (p : DiaryEntry → Bool)
    (h : hasId id es = false) : hasId id (es.filter p) = false := by
  apply hasId_false_of_elems
  intro e he
  exact hasId_false_elems h e (List.mem_filter.mp he).1

lemma hasId_of_idsOf_eq {id : Nat} {es es' : List DiaryEntry}
    (hw : idsOf es' = idsOf es) (h : hasId id es = false) : hasId id es' = false := by
  cases hx : hasId id es' with
  | false => rfl
  | true =>
      have : id ∈ idsOf es := hw ▸ (hasId_iff_mem id es').mp hx
      rw [(hasId_iff_mem id es).mpr this] at h
      cases h

lemma hasId_applyOp_false {id : Nat} {es : List DiaryEntry} {o : Op}
    (hnc : isCreate o = false) (h : hasId id es = false) :
    hasId id (applyOp o es) = false := by
  cases o with
  | create now ds c t g => cases hnc
  | update id' c t g =>
      by_cases hc : strTruthy c = true
      · simp only [applyOp, if_pos hc]
        exact hasId_of_idsOf_eq (idsOf_updateFirst id' c t g es) h
      · simpa [applyOp, hc] using h
  | trash id' => exact hasId_of_idsOf_eq (idsOf_setStatusFirst id' Status.trashed es) h
  | restore id' => exact hasId_of_idsOf_eq (idsOf_setStatusFirst id' Status.active es) h
  | pdelete id' ok =>
      cases ok with
      | false => simpa [applyOp] using h
      | true =>
          simp only [applyOp, if_pos rfl]
          exact hasId_sub_filter _ h
  | attach i s => exact hasId_of_idsOf_eq (idsOf_attachAt i s es) h

lemma hasId_applyOps_false {id : Nat} {ops : List Op} {es : List DiaryEntry}
    (hnc : noCreate ops = true) (h : hasId id es = false) :
    hasId id (applyOps ops es) = false := by
  induction ops generalizing es with
  | nil => simpa [applyOps_nil] using h
  | cons o rest ih =>
      simp only [noCreate, List.all_cons, Bool.and_eq_true] at hnc
      rw [applyOps_cons]
      have ho : isCreate o = false := by
        cases hx : isCreate o
        · rfl
        · rw [hx] at hnc; simpa using hnc.1
      exact ih (by simpa [noCreate] using hnc.2) (hasId_applyOp_false ho h)

/-! ### Freshness and id-uniqueness lemmas -/

lemma nodup_applyOp {o : Op} {es : List DiaryEntry}
    (hfresh : freshOk o es = true) (h : (idsOf es).Nodup) :
    (idsOf (applyOp o es)).Nodup := by
  cases o with
  | create now ds c t g =>
      by_cases hc : strTruthy c = true
      · simp only [applyOp, if_pos hc, idsOf_append]
        have hmem : now ∉ idsOf es := by
          intro hm
          have : hasId now es = true := (hasId_iff_mem now es).mpr hm
          simp [freshOk, this] at hfresh
        have hperm : (idsOf es ++ idsOf [newEntry now ds c
            (if strTruthy t then t else generateTitle g c ds)]).Perm
            (now :: idsOf es) := List.perm_append_singleton _ _
        rw [hperm.nodup_iff]
        exact List.nodup_cons.mpr ⟨hmem, h⟩
      · simpa [applyOp, hc] using h
  | update id c t g =>
      by_cases hc : strTruthy c = true
      · simpa [applyOp, hc, idsOf_updateFirst] using h
      · simpa [applyOp, hc] using h
  | trash id => simpa [applyOp, idsOf_setStatusFirst] using h
  | restore id => simpa [applyOp, idsOf_setStatusFirst] using h
  | pdelete id ok =>
      cases ok with
      | false => simpa [applyOp] using h
      | true =>
          show (idsOf (es.filter (fun e => !(e.id == id)))).Nodup
          rw [idsOf_filter_ne]
          exact h.filter _
  | attach i s => simpa [applyOp, idsOf_attachAt] using h

lemma freshSeq_cons_elim {o : Op} {ops : List Op} {es : List DiaryEntry}
    (h : freshSeq (o :: ops) es = true) :
    freshOk o es = true ∧ freshSeq ops (applyOp o es) = true := by
  simpa [freshSeq, Bool.and_eq_true] using h

lemma freshSeq_append_left {p q : List Op} {es : List DiaryEntry}
    (h : freshSeq (p ++ q) es = true) : freshSeq p es = true := by
  induction p generalizing es with
  | nil => rfl
  | cons o rest ih =>
      have h' := freshSeq_cons_elim (by simpa using h)
      simp only [freshSeq, Bool.and_eq_true]
      exact ⟨h'.1, ih h'.2⟩

lemma nodup_applyOps {p : List Op} {es : List DiaryEntry}
    (h : freshSeq p es = true) (hn : (idsOf es).Nodup) :
    (idsOf (applyOps p es)).Nodup := by
  induction p generalizing es with
  | nil => simpa [applyOps_nil] using hn
  | cons o rest ih =>
      have h' := freshSeq_cons_elim h
      rw [applyOps_cons]
      exact ih h'.2 (nodup_applyOp h'.1 hn)

/-! ### Lemmas about the two phases of the coach-summary flow -/

lemma entryOf_attachAt_request {id : Nat} {es : List DiaryEntry} {i : Nat} (s : String)
    (h : requestCoachIdx id es = some i) :
    entryOf id (attachAt i s es) =
      (entryOf id es).map (fun e => { e with coachSummary := some s }) := by
  induction es generalizing i with
  | nil => simp [requestCoachIdx] at h
  | cons e rest ih =>
      by_cases hc : (e.id == id) = true
      · simp only [requestCoachIdx, if_pos hc] at h
        have hi : i = 0 := by
          cases h
          rfl
        subst hi
        simp [attachAt, entryOf, hc]
      · simp only [requestCoachIdx, if_neg hc] at h
        rcases Option.map_eq_some'.mp h with ⟨n, hn, hni⟩
        subst hni
        simp only [attachAt, entryOf, if_neg hc]
        exact ih hn

lemma attachAt_oob {i : Nat} {es : List DiaryEntry} (s : String)
    (h : es.length ≤ i) : attachAt i s es = es := by
  induction es generalizing i with
  | nil => cases i <;> rfl
  | cons e rest ih =>
      cases i with
      | zero => exact absurd h (Nat.not_succ_le_zero _)
      | succ n =>
          simp only [attachAt]
          rw [ih (Nat.le_of_succ_le_succ h)]

lemma attachAt_inb {i : Nat} {es : List DiaryEntry} (s : String)
    (h : i < es.length) :
    attachAt i s es = es.set i { es.get ⟨i, h⟩ with coachSummary := some s } := by
  induction es generalizing i with
  | nil => exact absurd h (Nat.not_lt_zero _)
  | cons e rest ih =>
      cases i with
      | zero => rfl
      | succ n =>
          simp only [attachAt, List.set, List.get]
          rw [ih (Nat.lt_of_succ_lt_succ h)]

/-! ### Status observation lemmas, one per operation -/

lemma statusOf_setStatusFirst_self (id : Nat) (st : Status) (es : List DiaryEntry) :
    statusOf id (setStatusFirst id st es) = (statusOf id es).map (fun _ => st) := by
  unfold statusOf
  rw [entryOf_setStatusFirst_self]
  cases entryOf id es <;> rfl

lemma statusOf_setStatusFirst_other {id id' : Nat} (h : id ≠ id') (st : Status)
    (es : List DiaryEntry) : statusOf id (setStatusFirst id' st es) = statusOf id es := by
  unfold statusOf
  rw [entryOf_setStatusFirst_other h]

lemma statusOf_updateFirst (id id' : Nat) (c t : String) (g : GenResult)
    (es : List DiaryEntry) : statusOf id (updateFirst id' c t g es) = statusOf id es := by
  by_cases h : id = id'
  · subst h
    unfold statusOf
    rw [entryOf_updateFirst_self]
    cases entryOf id es with
    | none => rfl
    | some e => simp [updEntry_status]
  · unfold statusOf
    rw [entryOf_updateFirst_other h]

lemma statusOf_append_present {id : Nat} {es : List DiaryEntry} {e : DiaryEntry}
    (h : entryOf id es = some e) (l : List DiaryEntry) :
    statusOf id (es ++ l) = statusOf id es := by
  unfold statusOf
  rw [entryOf_append, h]
  rfl

lemma statusOf_filter_other {id id' : Nat} (h : id ≠ id') (es : List DiaryEntry) :
    statusOf id (es.filter (fun e => !(e.id == id'))) = statusOf id es := by
  unfold statusOf
  rw [entryOf_filter_other h]

lemma statusOf_filter_self (id : Nat) (es : List DiaryEntry) :
    statusOf id (es.filter (fun e => !(e.id == id))) = none := by
  unfold statusOf
  rw [entryOf_filter_self]
  rfl

lemma statusOf_single_new (id now : Nat) (ds c t : String) :
    statusOf id [newEntry now ds c t] =
      (if now = id then some Status.active else none) := by
  by_cases h : now = id
  · simp [statusOf, entryOf, newEntry, h]
  · simp [statusOf, entryOf, newEntry, h]

/-! ### Claim theorems -/

/-- C6: `generateTitle` never throws to its caller (it is total by
construction): when the capability is unavailable it returns the
fallback immediately without attempting a call, when the call fails it
returns the fallback, and when the call succeeds it returns the trimmed
result, or the fallback when the trimmed result is empty.  Consequently
creating an entry with empty title while the generator is unavailable
yields an entry whose title equals its formatted creation-date string. -/
theorem generateTitle_total_fallback :
    (∀ c f, generateTitle GenResult.unavailable c f = f) ∧
    (∀ c f, generateTitle GenResult.failure c f = f) ∧
    (∀ c f s, generateTitle (GenResult.success s) c f =
       if strTruthy (strTrim s) then strTrim s else f) ∧
    (∀ es (now : Nat) ds c, strTruthy c = true →
       applyOp (Op.create now ds c "" GenResult.unavailable) es =
         es ++ [newEntry now ds c ds]) := by
  refine ⟨fun c f => rfl, fun c f => rfl, fun c f s => rfl, ?_⟩
  intro es now ds c hc
  have h0 : strTruthy "" = false := rfl
  simp [applyOp, hc, h0, generateTitle]

/-- C6 witness: a concrete create with empty user title and unavailable
generator produces an entry titled with its date string. -/
theorem generateTitle_total_fallback_witness :
    applyOp (Op.create 7 "May 1, 2025" "Had a great run today" "" GenResult.unavailable) [] =
      [] ++ [newEntry 7 "May 1, 2025" "Had a great run today" "May 1, 2025"] :=
  generateTitle_total_fallback.2.2.2 [] 7 "May 1, 2025" "Had a great run today" (by decide)

/-- C2: updating a stored entry with non-empty content: when the
submitted content equals the stored content only the title is set to
the user-supplied title (every other field, `coachSummary` included, is
unchanged); when it differs the content is replaced, the title is
regenerated from the Generator outcome (the user-supplied title does
not occur in the result), and `coachSummary` is cleared. -/
theorem update_content_title_summary (es : List DiaryEntry) (id : Nat)
    (c t : String) (g : GenResult) (e : DiaryEntry)
    (hc : strTruthy c = true) (he : entryOf id es = some e) :
    entryOf id (applyOp (Op.update id c t g) es) =
      some (if e.content = c then { e with title := t }
            else { e with content := c, title := generateTitle g c e.date,
                          coachSummary := none }) := by
  simp only [applyOp, if_pos hc]
  rw [entryOf_updateFirst_self, he]
  rfl

/-- C2 witness: the scenario of the specification: updating entry 1 from
content A to content B with the generator returning a new title stores
content B, the generated title, and a cleared summary. -/
theorem update_content_title_summary_witness :
    entryOf 1 (applyOp (Op.update 1 "B" "x" (GenResult.success "New Title"))
        [⟨1, "d", "t", "A", Status.active, some "s"⟩]) =
      some ⟨1, "d", "New Title", "B", Status.active, none⟩ :=
  (update_content_title_summary [⟨1, "d", "t", "A", Status.active, some "s"⟩] 1 "B" "x"
      (GenResult.success "New Title") ⟨1, "d", "t", "A", Status.active, some "s"⟩
      (by decide) (by decide)).trans (by decide)

/-- C5: in the diary projection an entry is flagged expanded iff its id
equals the current expanded id and the search query is empty; whenever
the query is non-empty every projected entry is collapsed. -/
theorem expanded_flag_iff (entries : List DiaryEntry) (q : String)
    (eid : Option Nat) (e : DiaryEntry) (b : Bool)
    (h : (e, b) ∈ diaryList entries q eid) :
    (b = true ↔ (some e.id = eid ∧ strTruthy q = false)) ∧
    (strTruthy q = true → b = false) := by
  simp only [diaryList, List.mem_map] at h
  rcases h with ⟨a, ha, hab⟩
  have h1 : a = e := congrArg Prod.fst hab
  have h2 : (decide (some a.id = eid) && !strTruthy q) = b := congrArg Prod.snd hab
  subst h1
  constructor
  · rw [← h2]
    simp [Bool.and_eq_true]
  · intro hq
    rw [← h2, hq]
    simp

/-- C5 witness: with an empty query the sticky selection marks the
matching entry expanded. -/
theorem expanded_flag_iff_witness :
    ((true = true) ↔ (some (1 : Nat) = some 1 ∧ strTruthy "" = false)) ∧
    (strTruthy "" = true → true = false) :=
  expanded_flag_iff [⟨1, "d", "t", "c", Status.active, none⟩] "" (some 1)
    ⟨1, "d", "t", "c", Status.active, none⟩ true (by decide)

/-- C9 (amended): the projection never changes the entry collection, the
current view or the search query, and the projected lists are functions
of (entries, query, expanded id) alone; however rendering the diary view
with a non-empty query resets the expanded id to none, and with an empty
query (and in the trash view) the expanded id too is unchanged. -/
theorem render_frame_effects (st : AppState) :
    ((renderDiaryPage st).1.entries = st.entries ∧
     (renderDiaryPage st).1.currentView = st.currentView ∧
     (renderDiaryPage st).1.searchQuery = st.searchQuery ∧
     (renderDiaryPage st).1.expandedEntryId =
       (if strTruthy st.searchQuery then none else st.expandedEntryId) ∧
     (renderTrashPage st).1 = st) ∧
    (∀ st2 : AppState, st.entries = st2.entries → st.searchQuery = st2.searchQuery →
       st.expandedEntryId = st2.expandedEntryId →
       (renderDiaryPage st).2 = (renderDiaryPage st2).2 ∧
       (renderTrashPage st).2 = (renderTrashPage st2).2) := by
  refine ⟨⟨rfl, rfl, rfl, rfl, rfl⟩, ?_⟩
  intro st2 h1 h2 h3
  constructor
  · simp [renderDiaryPage, h1, h2, h3]
  · simp [renderTrashPage, h1, h2]

/-- C9 witness: two states that differ only in the current view produce
identical projected lists. -/
theorem render_frame_effects_witness :
    (renderDiaryPage ⟨[], View.diary, "", none⟩).2 =
      (renderDiaryPage ⟨[], View.trash, "", none⟩).2 ∧
    (renderTrashPage ⟨[], View.diary, "", none⟩).2 =
      (renderTrashPage ⟨[], View.trash, "", none⟩).2 :=
  (render_frame_effects ⟨[], View.diary, "", none⟩).2 ⟨[], View.trash, "", none⟩ rfl rfl rfl

/-- C9 counterexample: rendering the diary view with a non-empty search
query mutates the state: the expanded id is cleared, so the projection
does not leave the expanded id unchanged. -/
theorem render_mutates_expanded_counterexample :
    (renderDiaryPage ⟨[], View.diary, "a", some 5⟩).1.expandedEntryId = none ∧
    (renderDiaryPage ⟨[], View.diary, "a", some 5⟩).1 ≠
      (⟨[], View.diary, "a", some 5⟩ : AppState) := by
  constructor
  · rfl
  · intro h
    exact Option.noConfusion (congrArg AppState.expandedEntryId h)

/-- C10: a capability output that trims to empty makes the successful
coach-summary generation return the empty string with no fallback;
attaching it stores `some ""`, and an entry in that state behaves as if
it had no summary: the search predicate ignores the summary conjunct
exactly as for an absent summary, the coach button is offered again,
and the summary block is not rendered. -/
theorem empty_summary_behaves_absent (s : String) (h : strTrim s = "") :
    getAiCoachSummary (GenResult.success s) = "" ∧
    (∀ id es i, requestCoachIdx id es = some i →
       entryOf id (attachAt i (getAiCoachSummary (GenResult.success s)) es) =
         (entryOf id es).map (fun e => { e with coachSummary := some "" })) ∧
    (∀ lq (e : DiaryEntry),
       entryMatches lq { e with coachSummary := some "" } =
         entryMatches lq { e with coachSummary := none }) ∧
    (∀ e : DiaryEntry, e.coachSummary = some "" →
       coachButtonShown e = true ∧ coachBlockShown e = false) := by
  have hg : getAiCoachSummary (GenResult.success s) = "" := h
  refine ⟨hg, ?_, fun lq e => rfl, ?_⟩
  · intro id es i hreq
    rw [hg]
    exact entryOf_attachAt_request "" hreq
  · intro e he
    constructor
    · simp [coachButtonShown, summaryTruthy, he]
      rfl
    · simp [coachBlockShown, summaryTruthy, he]
      rfl

/-- C10 witness: a whitespace-only generation output yields the empty
summary string. -/
theorem empty_summary_behaves_absent_witness :
    getAiCoachSummary (GenResult.success "   ") = "" :=
  (empty_summary_behaves_absent "   " (by decide)).1

/-- C4: both view projections return exactly the stored entries whose
status matches the view and which, for a non-empty query, pass the
case-insensitive substring test over title, content and coach summary
(absent summary read as empty, OR across the fields); both are sorted
by id descending; with an empty query the diary projection is a
permutation (and hence, being sorted, the descending reordering) of the
active entries; with a non-empty query no projected entry fails the
three-field substring test. -/
theorem projection_filter_sort (entries : List DiaryEntry) (q : String) (eid : Option Nat) :
    (∀ e, e ∈ diaryEntriesOf entries q ↔
       (e ∈ entries ∧ e.status = Status.active ∧
        (strTruthy q = true → fieldTest q e = true))) ∧
    (∀ e, e ∈ trashEntriesOf entries q ↔
       (e ∈ entries ∧ e.status = Status.trashed ∧
        (strTruthy q = true → fieldTest q e = true))) ∧
    List.Sorted idLE (diaryEntriesOf entries q) ∧
    List.Sorted idLE (trashEntriesOf entries q) ∧
    (diaryEntriesOf entries "").Perm
      (entries.filter (fun e => decide (e.status = Status.active))) ∧
    (strTruthy q = true → ∀ p ∈ diaryList entries q eid, fieldTest q p.1 = true) := by
  refine ⟨fun e => mem_diaryEntriesOf, fun e => mem_trashEntriesOf,
    sorted_sortDesc _, sorted_sortDesc _, perm_sortDesc _, ?_⟩
  intro hq p hp
  simp only [diaryList, List.mem_map] at hp
  rcases hp with ⟨a, ha, hab⟩
  have h1 : a = p.1 := congrArg Prod.fst hab
  rw [← h1]
  exact (mem_diaryEntriesOf.mp ha).2.2 hq

/-- C4 witness: the specification scenario: ids 100 (active, Morning)
and 200 (trashed, Morning mess) with diary query morning project to
exactly the active entry 100. -/
theorem projection_filter_sort_witness :
    fieldTest "morning" ⟨100, "d", "Morning", "c", Status.active, none⟩ = true :=
  (projection_filter_sort
      [⟨100, "d", "Morning", "c", Status.active, none⟩,
       ⟨200, "d", "Morning mess", "c", Status.trashed, none⟩] "morning" none).2.2.2.2.2
    (by decide) (⟨100, "d", "Morning", "c", Status.active, none⟩, false) (by decide)

/-- C1 (amended): `handleAiCoach` checks existence at request time only,
capturing the index of the entry.  When the generation resolves, the
summary is written to whatever entry sits at the captured index in the
collection current at that moment - the requested entry whenever the
collection is the one the request saw - and when the index is out of
bounds the write throws, is caught, and the store is left unchanged. -/
theorem attach_index_behavior :
    (∀ (id : Nat) (es : List DiaryEntry) (i : Nat) (s : String),
       requestCoachIdx id es = some i →
       entryOf id (attachAt i s es) =
         (entryOf id es).map (fun e => { e with coachSummary := some s })) ∧
    (∀ (i : Nat) (s : String) (es : List DiaryEntry),
       es.length ≤ i → attachAt i s es = es) ∧
    (∀ (i : Nat) (s : String) (es : List DiaryEntry) (h : i < es.length),
       attachAt i s es = es.set i { es.get ⟨i, h⟩ with coachSummary := some s }) :=
  ⟨fun id es i s h => entryOf_attachAt_request s h,
   fun i s es h => attachAt_oob s h,
   fun i s es h => attachAt_inb s h⟩

/-- C1 witness: with an unchanged store the summary lands on the
requested entry. -/
theorem attach_index_behavior_witness :
    entryOf 1 (attachAt 0 "S" [⟨1, "d", "t", "c", Status.active, none⟩]) =
      (entryOf 1 [⟨1, "d", "t", "c", Status.active, none⟩]).map
        (fun e => { e with coachSummary := some "S" }) :=
  attach_index_behavior.1 1 [⟨1, "d", "t", "c", Status.active, none⟩] 0 "S" (by decide)

/-- C1 counterexample: the coach request captures index 0 for entry id 1;
entry 1 is permanently deleted while the generation is in flight, so no
entry with id 1 exists any more, yet the resolution writes the summary
into the store - onto the unrelated entry id 2 now at index 0 - so the
store is not left unchanged. -/
theorem attach_after_delete_counterexample :
    requestCoachIdx 1 [⟨1, "d1", "t1", "c1", Status.active, none⟩,
                       ⟨2, "d2", "t2", "c2", Status.active, none⟩] = some 0 ∧
    applyOp (Op.pdelete 1 true) [⟨1, "d1", "t1", "c1", Status.active, none⟩,
                                 ⟨2, "d2", "t2", "c2", Status.active, none⟩] =
      [⟨2, "d2", "t2", "c2", Status.active, none⟩] ∧
    hasId 1 [⟨2, "d2", "t2", "c2", Status.active, none⟩] = false ∧
    attachAt 0 "S" [⟨2, "d2", "t2", "c2", Status.active, none⟩] =
      [⟨2, "d2", "t2", "c2", Status.active, some "S"⟩] ∧
    attachAt 0 "S" [⟨2, "d2", "t2", "c2", Status.active, none⟩] ≠
      [⟨2, "d2", "t2", "c2", Status.active, none⟩] := by
  refine ⟨rfl, by decide, rfl, rfl, ?_⟩
  decide

/-- C3 (amended): provided every create runs at a clock value that is
not already an id in the store, the store never holds two entries with
the same id at any point of any operation sequence from the empty
store; and independently, no operation rewrites an existing id: each
operation leaves the id sequence unchanged, appends one new id
(create), or removes the occurrences of one id (permanent delete). -/
theorem ids_unique_stable_fresh :
    (∀ p q : List Op, freshSeq (p ++ q) [] = true →
       (idsOf (applyOps p [])).Nodup) ∧
    (∀ (o : Op) (es : List DiaryEntry),
       idsOf (applyOp o es) = idsOf es ∨
       (∃ n, isCreate o = true ∧ idsOf (applyOp o es) = idsOf es ++ [n]) ∨
       (∃ n, idsOf (applyOp o es) = (idsOf es).filter (fun m => !(m == n)))) := by
  constructor
  · intro p q h
    exact nodup_applyOps (freshSeq_append_left h) (by simp [idsOf])
  · intro o es
    cases o with
    | create now ds c t g =>
        by_cases hc : strTruthy c = true
        · right; left
          exact ⟨now, rfl, by simp [applyOp, hc, idsOf_append, idsOf, newEntry]⟩
        · left; simp [applyOp, hc]
    | update id c t g =>
        left
        by_cases hc : strTruthy c = true
        · simp [applyOp, hc, idsOf_updateFirst]
        · simp [applyOp, hc]
    | trash id => left; simp [applyOp, idsOf_setStatusFirst]
    | restore id => left; simp [applyOp, idsOf_setStatusFirst]
    | pdelete id ok =>
        cases ok with
        | false => left; simp [applyOp]
        | true => right; right; exact ⟨id, by simp [applyOp, idsOf_filter_ne]⟩
    | attach i s => left; simp [applyOp, idsOf_attachAt]

/-- C3 witness: a fresh create sequence keeps ids unique. -/
theorem ids_unique_stable_fresh_witness :
    (idsOf (applyOps [Op.create 5 "d" "c" "" GenResult.unavailable] [])).Nodup :=
  ids_unique_stable_fresh.1 [Op.create 5 "d" "c" "" GenResult.unavailable] [] (by decide)

/-- C3 counterexample: two creates at the same clock value (the clock is
`Date.now()`, which can repeat within a millisecond) produce two entries
with the same id, so uniqueness does not hold for every operation
sequence. -/
theorem duplicate_timestamp_ids_counterexample :
    ¬ (idsOf (applyOps [Op.create 5 "d" "c" "" GenResult.unavailable,
                        Op.create 5 "d" "c" "" GenResult.unavailable] [])).Nodup := by
  decide

/-- helper: an operation that does not change the observable status of
an id admits only the identity transition. -/
lemma shape_of_preserved {id : Nat} {es es' : List DiaryEntry}
    (hEq : statusOf id es' = statusOf id es) :
    (∀ s s', statusOf id es = some s → statusOf id es' = some s' → s' = s) ∧
    (∀ s, statusOf id es = some s → statusOf id es' = none → False) ∧
    (statusOf id es = none → ∀ s', statusOf id es' = some s' → False) := by
  refine ⟨?_, ?_, ?_⟩
  · intro s s' h1 h2
    rw [hEq, h1] at h2
    exact (Option.some.inj h2).symm
  · intro s h1 h2
    rw [hEq, h1] at h2
    cases h2
  · intro h1 s' h2
    rw [hEq, h1] at h2
    cases h2

/-- C7 (amended): the status field changes only along
active to trashed (the trash operation on that id) and trashed to
active (the restore operation on that id); an id disappears from the
store only through a confirmed permanent delete of exactly that id -
which removes the entry regardless of its status - and an id appears
only through a create, with status active. -/
theorem status_transition_shape (o : Op) (es : List DiaryEntry) (id : Nat) :
    (∀ s s', statusOf id es = some s → statusOf id (applyOp o es) = some s' →
       (s' = s ∨ (s = Status.active ∧ s' = Status.trashed ∧ o = Op.trash id) ∨
        (s = Status.trashed ∧ s' = Status.active ∧ o = Op.restore id))) ∧
    (∀ s, statusOf id es = some s → statusOf id (applyOp o es) = none →
       o = Op.pdelete id true) ∧
    (statusOf id es = none → ∀ s', statusOf id (applyOp o es) = some s' →
       (∃ ds c t g, o = Op.create id ds c t g) ∧ s' = Status.active) := by
  cases o with
  | create now ds c t g =>
      by_cases hc : strTruthy c = true
      · refine ⟨?_, ?_, ?_⟩
        · intro s s' h1 h2
          rcases Option.map_eq_some'.mp h1 with ⟨e, he, hst⟩
          rw [show applyOp (Op.create now ds c t g) es =
                es ++ [newEntry now ds c (if strTruthy t then t
                  else generateTitle g c ds)] from by simp [applyOp, hc],
              statusOf_append_present he, h1] at h2
          exact Or.inl (Option.some.inj h2).symm
        · intro s h1 h2
          rcases Option.map_eq_some'.mp h1 with ⟨e, he, hst⟩
          rw [show applyOp (Op.create now ds c t g) es =
                es ++ [newEntry now ds c (if strTruthy t then t
                  else generateTitle g c ds)] from by simp [applyOp, hc],
              statusOf_append_present he, h1] at h2
          cases h2
        · intro h1 s' h2
          have hen : entryOf id es = none := by
            cases hx : entryOf id es with
            | none => rfl
            | some e => rw [statusOf, hx] at h1; cases h1
          rw [show applyOp (Op.create now ds c t g) es =
                es ++ [newEntry now ds c (if strTruthy t then t
                  else generateTitle g c ds)] from by simp [applyOp, hc]] at h2
          rw [statusOf, entryOf_append, hen, Option.none_or,
              show (entryOf id [newEntry now ds c (if strTruthy t then t
                else generateTitle g c ds)]).map (fun e => e.status) =
                  statusOf id [newEntry now ds c (if strTruthy t then t
                    else generateTitle g c ds)] from rfl,
              statusOf_single_new] at h2
          by_cases hni : now = id
          · rw [if_pos hni] at h2
            subst hni
            exact ⟨⟨ds, c, t, g, rfl⟩, (Option.some.inj h2).symm⟩
          · rw [if_neg hni] at h2
            cases h2
      · have hEq : statusOf id (applyOp (Op.create now ds c t g) es) = statusOf id es := by
          simp [applyOp, hc]
        obtain ⟨A, B, C⟩ := shape_of_preserved hEq
        exact ⟨fun s s' h1 h2 => Or.inl (A s s' h1 h2),
               fun s h1 h2 => (B s h1 h2).elim,
               fun h1 s' h2 => ((C h1 s' h2).elim)⟩
  | update id' c t g =>
      have hEq : statusOf id (applyOp (Op.update id' c t g) es) = statusOf id es := by
        by_cases hc : strTruthy c = true
        · simp [applyOp, hc, statusOf_updateFirst]
        · simp [applyOp, hc]
      obtain ⟨A, B, C⟩ := shape_of_preserved hEq
      exact ⟨fun s s' h1 h2 => Or.inl (A s s' h1 h2),
             fun s h1 h2 => (B s h1 h2).elim,
             fun h1 s' h2 => ((C h1 s' h2).elim)⟩
  | trash id' =>
      by_cases hid : id = id'
      · subst hid
        refine ⟨?_, ?_, ?_⟩
        · intro s s' h1 h2
          rw [show applyOp (Op.trash id) es = setStatusFirst id Status.trashed es from rfl,
              statusOf_setStatusFirst_self, h1] at h2
          have hs' : s' = Status.trashed := (Option.some.inj h2).symm
          cases s with
          | active => exact Or.inr (Or.inl ⟨rfl, hs', rfl⟩)
          | trashed => exact Or.inl (hs'.trans rfl)
        · intro s h1 h2
          rw [show applyOp (Op.trash id) es = setStatusFirst id Status.trashed es from rfl,
              statusOf_setStatusFirst_self, h1] at h2
          cases h2
        · intro h1 s' h2
          rw [show applyOp (Op.trash id) es = setStatusFirst id Status.trashed es from rfl,
              statusOf_setStatusFirst_self, h1] at h2
          cases h2
      · have hEq : statusOf id (applyOp (Op.trash id') es) = statusOf id es :=
          statusOf_setStatusFirst_other hid Status.trashed es
        obtain ⟨A, B, C⟩ := shape_of_preserved hEq
        exact ⟨fun s s' h1 h2 => Or.inl (A s s' h1 h2),
               fun s h1 h2 => (B s h1 h2).elim,
               fun h1 s' h2 => ((C h1 s' h2).elim)⟩
  | restore id' =>
      by_cases hid : id = id'
      · subst hid
        refine ⟨?_, ?_, ?_⟩
        · intro s s' h1 h2
          rw [show applyOp (Op.restore id) es = setStatusFirst id Status.active es from rfl,
              statusOf_setStatusFirst_self, h1] at h2
          have hs' : s' = Status.active := (Option.some.inj h2).symm
          cases s with
          | active => exact Or.inl (hs'.trans rfl)
          | trashed => exact Or.inr (Or.inr ⟨rfl, hs', rfl⟩)
        · intro s h1 h2
          rw [show applyOp (Op.restore id) es = setStatusFirst id Status.active es from rfl,
              statusOf_setStatusFirst_self, h1] at h2
          cases h2
        · intro h1 s' h2
          rw [show applyOp (Op.restore id) es = setStatusFirst id Status.active es from rfl,
              statusOf_setStatusFirst_self, h1] at h2
          cases h2
      · have hEq : statusOf id (applyOp (Op.restore id') es) = statusOf id es :=
          statusOf_setStatusFirst_other hid Status.active es
        obtain ⟨A, B, C⟩ := shape_of_preserved hEq
        exact ⟨fun s s' h1 h2 => Or.inl (A s s' h1 h2),
               fun s h1 h2 => (B s h1 h2).elim,
               fun h1 s' h2 => ((C h1 s' h2).elim)⟩
  | pdelete id' ok =>
      cases ok with
      | false =>
          have hEq : statusOf id (applyOp (Op.pdelete id' false) es) = statusOf id es := by
            simp [applyOp]
          obtain ⟨A, B, C⟩ := shape_of_preserved hEq
          exact ⟨fun s s' h1 h2 => Or.inl (A s s' h1 h2),
                 fun s h1 h2 => (B s h1 h2).elim,
                 fun h1 s' h2 => ((C h1 s' h2).elim)⟩
      | true =>
          by_cases hid : id = id'
          · subst hid
            refine ⟨?_, ?_, ?_⟩
            · intro s s' h1 h2
              rw [show applyOp (Op.pdelete id true) es =
                    es.filter (fun e => !(e.id == id)) from rfl,
                  statusOf_filter_self] at h2
              cases h2
            · intro s h1 h2
              rfl
            · intro h1 s' h2
              rw [show applyOp (Op.pdelete id true) es =
                    es.filter (fun e => !(e.id == id)) from rfl,
                  statusOf_filter_self] at h2
              cases h2
          · have hEq : statusOf id (applyOp (Op.pdelete id' true) es) = statusOf id es := by
              rw [show applyOp (Op.pdelete id' true) es =
                    es.filter (fun e => !(e.id == id')) from rfl]
              exact statusOf_filter_other hid es
            obtain ⟨A, B, C⟩ := shape_of_preserved hEq
            exact ⟨fun s s' h1 h2 => Or.inl (A s s' h1 h2),
                   fun s h1 h2 => (B s h1 h2).elim,
                   fun h1 s' h2 => ((C h1 s' h2).elim)⟩
  | attach i s =>
      have hEq : statusOf id (applyOp (Op.attach i s) es) = statusOf id es :=
        entryOf_attachAt id i s es
      obtain ⟨A, B, C⟩ := shape_of_preserved hEq
      exact ⟨fun s1 s2 h1 h2 => Or.inl (A s1 s2 h1 h2),
             fun s1 h1 h2 => (B s1 h1 h2).elim,
             fun h1 s2 h2 => ((C h1 s2 h2).elim)⟩

/-- C7 witness: trashing an active entry yields the active to trashed
transition of the allowed shape. -/
theorem status_transition_shape_witness :
    Status.trashed = Status.active ∨
    (Status.active = Status.active ∧ Status.trashed = Status.trashed ∧
      Op.trash 1 = Op.trash 1) ∨
    (Status.active = Status.trashed ∧ Status.trashed = Status.active ∧
      Op.trash 1 = Op.restore 1) :=
  (status_transition_shape (Op.trash 1) [⟨1, "d", "t", "c", Status.active, none⟩] 1).1
    Status.active Status.trashed (by decide) (by decide)

/-- C7 counterexample: a permanent delete removes an entry whose status
is active - the store-level operation filters by id only and does not
require the trashed status, so an active entry can be destroyed
directly. -/
theorem active_permanent_delete_counterexample :
    statusOf 1 [⟨1, "d", "t", "c", Status.active, none⟩] = some Status.active ∧
    statusOf 1 (applyOp (Op.pdelete 1 true)
        [⟨1, "d", "t", "c", Status.active, none⟩]) = none := by
  decide

/-- helper: a member of the diary projection is (in its first component)
a member of the underlying diary entry list. -/
lemma mem_diaryList_fst {entries : List DiaryEntry} {q : String} {eid : Option Nat}
    {p : DiaryEntry × Bool} (hp : p ∈ diaryList entries q eid) :
    p.1 ∈ diaryEntriesOf entries q := by
  simp only [diaryList, List.mem_map] at hp
  rcases hp with ⟨a, ha, hab⟩
  cases hab
  exact ha

/-- C8: permanently deleting an id removes every entry with that id;
the absence persists under any further update, trash, restore, delete
or summary-attach sequence (no create), so no later projection of
either view contains the id; and on a store without the id each of the
four mutations referencing it leaves the store unchanged. -/
theorem permanent_delete_noop_spec (id : Nat) (es : List DiaryEntry)
    (hpres : hasId id es = true) :
    hasId id (applyOp (Op.pdelete id true) es) = false ∧
    (∀ ops, noCreate ops = true → ∀ q eid,
       (∀ p ∈ diaryList (applyOps ops (applyOp (Op.pdelete id true) es)) q eid,
          p.1.id ≠ id) ∧
       (∀ e ∈ trashEntriesOf (applyOps ops (applyOp (Op.pdelete id true) es)) q,
          e.id ≠ id)) ∧
    (∀ es2, hasId id es2 = false →
       (∀ c t g, applyOp (Op.update id c t g) es2 = es2) ∧
       applyOp (Op.trash id) es2 = es2 ∧
       applyOp (Op.restore id) es2 = es2 ∧
       (∀ ok, applyOp (Op.pdelete id ok) es2 = es2)) := by
  have hdel : hasId id (applyOp (Op.pdelete id true) es) = false := by
    rw [show applyOp (Op.pdelete id true) es =
          es.filter (fun e => !(e.id == id)) from rfl]
    exact hasId_filter_self id es
  refine ⟨hdel, ?_, ?_⟩
  · intro ops hnc q eid
    have habs : hasId id (applyOps ops (applyOp (Op.pdelete id true) es)) = false :=
      hasId_applyOps_false hnc hdel
    constructor
    · intro p hp
      exact hasId_false_elems habs p.1 (mem_diaryEntriesOf.mp (mem_diaryList_fst hp)).1
    · intro e he
      exact hasId_false_elems habs e (mem_trashEntriesOf.mp he).1
  · intro es2 h2
    refine ⟨?_, ?_, ?_, ?_⟩
    · intro c t g
      by_cases hc : strTruthy c = true
      · simp only [applyOp, if_pos hc]
        exact updateFirst_not_found h2 c t g
      · simp [applyOp, hc]
    · exact setStatusFirst_not_found h2 Status.trashed
    · exact setStatusFirst_not_found h2 Status.active
    · intro ok
      cases ok with
      | false => simp [applyOp]
      | true =>
          rw [show applyOp (Op.pdelete id true) es2 =
                es2.filter (fun e => !(e.id == id)) from rfl]
          exact filter_not_found h2

/-- C8 witness: deleting id 1 from a one-entry store removes the id. -/
theorem permanent_delete_noop_spec_witness :
    hasId 1 (applyOp (Op.pdelete 1 true) [⟨1, "d", "t", "c", Status.active, none⟩]) = false :=
  (permanent_delete_noop_spec 1 [⟨1, "d", "t", "c", Status.active, none⟩] (by decide)).1

/-- C8 counterexample: permanently deleting id 5 removes it, yet a
subsequent create whose clock value is again 5 - possible since
`Date.now()` can repeat within a millisecond, and accepted even by the
freshness check because the id is no longer in the store - puts an
entry with id 5 back into the diary projection, so the unrestricted
claim that no subsequent projection ever includes the id is false. -/
theorem recreate_after_delete_counterexample :
    hasId 5 (applyOp (Op.pdelete 5 true) [⟨5, "d", "t", "c", Status.active, none⟩]) = false ∧
    freshSeq [Op.create 5 "d2" "c2" "" GenResult.unavailable]
      (applyOp (Op.pdelete 5 true) [⟨5, "d", "t", "c", Status.active, none⟩]) = true ∧
    (∃ e ∈ diaryEntriesOf
        (applyOps [Op.create 5 "d2" "c2" "" GenResult.unavailable]
          (applyOp (Op.pdelete 5 true) [⟨5, "d", "t", "c", Status.active, none⟩])) "",
      e.id = 5) := by
  decide
